import Mathlib

/-!
# AS5600 magnetic encoder driver (`libraries/AP_RPM/RPM_AS5600.cpp`)

A shallow embedding of the compiled methods of `RPM_AS5600` (`init`, `update`, `_timer`,
`getMaxAngle`) as pure functions on an explicit object state. Every call into a
collaborator (bus manager, device handle, scheduler, logger, text channel, semaphores)
is recorded, in program order, in a list of `Event`s returned next to the new state.
The data members, their default initialisers and the register addresses are those of the
class declaration in `RPM_AS5600.h`.

Arithmetic of `update`: the source line is

    uint16_t angleRaw = ((highByte << 8) | lowByte)*0.087;

`0.087` is a C++ `double` literal, so the `int` operand is converted to `double`
(exactly), the product is one IEEE-754 binary64 multiplication (round to nearest, ties to
even), and the assignment truncates toward zero and narrows to 16 bits. This is modelled
exactly with natural numbers: the literal is `C_0_087_MANT / 2 ^ 56` and the product of
an integer `n` with it is `round_binary64 (n * C_0_087_MANT) / 2 ^ 56`. For example
`256 * 0.087` is 22.272, `4095 * 0.087` is 356.265 and `5000 * 0.087` is
434.99999999999994 (`0x1.b2fffffffffffp+8`), because the literal lies slightly below
87/1000.
-/

set_option linter.dupNamespace false

namespace RPM_AS5600

/-! ## IEEE-754 binary64 product with the literal `0.087` -/

/-- Precision of a binary64 significand in bits (`DBL_MANT_DIG`). -/
def DBL_MANT_DIG : Nat := 53

/-- Significand of the binary64 literal `0.087`, which is `0x1.645a1cac08312p-4`,
that is `0x1645a1cac08312 / 2 ^ 56`. -/
def C_0_087_MANT : Nat := 0x1645a1cac08312

/-- Binary scale of the literal: `0.087` as a double is `C_0_087_MANT / 2 ^ C_0_087_SCALE`. -/
def C_0_087_SCALE : Nat := 56

/-- The number of low-order bits `p` has beyond `DBL_MANT_DIG` significant bits; the first
argument bounds the number of halvings (`p` itself is always enough). -/
def excessBits : Nat → Nat → Nat
  | 0, _ => 0
  | fuel + 1, p => if p < 2 ^ DBL_MANT_DIG then 0 else excessBits fuel (p / 2) + 1

/-- Rounding of the natural number `p` to the nearest number with at most `DBL_MANT_DIG`
significant bits, ties to the even significand: the rounding step of a binary64 operation
whose exact result is `p / 2 ^ s` (the scale `s` is unchanged by rounding, and the values
met here are far inside the normal range). -/
def round_binary64 (p : Nat) : Nat :=
  let k := excessBits p p
  if k = 0 then p
  else
    let q := p / 2 ^ k
    let r := p % 2 ^ k
    let half := 2 ^ (k - 1)
    (if half < r ∨ (r = half ∧ q % 2 = 1) then q + 1 else q) * 2 ^ k

/-- Numerator over `2 ^ C_0_087_SCALE` of the binary64 product `n * 0.087` for an `int`
value `n` (its conversion to `double` is exact). -/
def mul_0_087 (n : Nat) : Nat := round_binary64 (n * C_0_087_MANT)

/-- The binary64 product `n * 0.087` as a rational number. -/
def product (n : Nat) : ℚ := (mul_0_087 n : ℚ) / 2 ^ C_0_087_SCALE

/-- Conversion of the double `numer / 2 ^ C_0_087_SCALE` to `uint16_t`: truncation toward
zero, then reduction to 16 bits. -/
def to_uint16 (numer : Nat) : Nat := numer / 2 ^ C_0_087_SCALE % 2 ^ 16

/-- The 18 raw values below `2 ^ 16` at which the binary64 product `raw * 0.087` falls just
below the integer `raw * 87 / 1000`. -/
def belowInteger : List Nat :=
  [5000, 10000, 11000, 19000, 20000, 21000, 22000, 23000, 38000, 39000,
   40000, 41000, 42000, 43000, 44000, 45000, 46000, 47000]

/-! ## Object state and collaborators -/

/-- A `uint8_t` value. -/
abbrev Byte := Fin 256

/-- Identity of an `AP_HAL::I2CDevice` handed out by the bus manager. -/
abbrev Handle := Nat

/-- The two semaphores the driver takes: `dev->get_semaphore()` (bus access) and the member
`sem` (guard of `highByte` / `lowByte`). -/
inductive Semaphore where
  | dev_semaphore
  | sem
  deriving DecidableEq, Repr

/-- Bus speed passed to `set_speed`, as in `AP_HAL::Device::Speed`. -/
inductive Speed where
  | SPEED_HIGH
  | SPEED_LOW
  deriving DecidableEq, Repr

/-- Member functions bound with `FUNCTOR_BIND_MEMBER` and handed to the scheduler. -/
inductive Callback where
  | _timer
  deriving DecidableEq, Repr

/-- Severity argument of `gcs().send_text`. -/
inductive Severity where
  | MAV_SEVERITY_INFO
  deriving DecidableEq, Repr

/-- One call into a collaborator, with its arguments (and, for a register read, what the
bus answered: `none` is a failed transfer). `take` is the acquisition made by
`WITH_SEMAPHORE`, `give` the release at the end of the enclosing scope. -/
inductive Event where
  | get_device (bus address : Nat)
  | take (s : Semaphore)
  | give (s : Semaphore)
  | set_speed (speed : Speed)
  | set_retries (retries : Nat)
  | register_periodic_callback (period_usec : Nat) (cb : Callback)
  | read_registers (first_reg : Nat) (answer : Option Byte)
  | send_text (severity : Severity) (fmt : String) (args : List Nat)
  | Write (name labels fmt : String) (TimeUS Angle : Nat)
  deriving DecidableEq, Repr

/-- Register addresses used by the compiled methods (constants of `RPM_AS5600.h`). -/
def REG_MANG_HI : Nat := 0x05

/-- Low byte of the maximum-angle register pair. -/
def REG_MANG_LO : Nat := 0x06

/-- High byte of the raw-angle register pair. -/
def REG_RAW_ANG_HI : Nat := 0x0c

/-- Low byte of the raw-angle register pair. -/
def REG_RAW_ANG_LO : Nat := 0x0d

/-- Data members of `RPM_AS5600` that the compiled methods read or write. `dev` is the
`OwnPtr` to the device: `none` is the null pointer. -/
structure State where
  regHiRead : Bool
  regLoRead : Bool
  dev : Option Handle
  bus : Nat
  address : Nat
  maxAngle : Nat
  lowByte : Byte
  highByte : Byte
  deriving DecidableEq, Repr

/-- What a method call leaves behind: its return value, the object state after the call and
the collaborator calls it made, in program order. -/
structure Result (α : Type) where
  ret : α
  state : State
  events : List Event

/-- The constructor: `bus = 2`, `address = 0x36`; `regHiRead` and `regLoRead` take their
default member initialiser `false`, `dev` is a null `OwnPtr`, and the members the
constructor leaves uninitialised (`maxAngle`, `lowByte`, `highByte`) hold whatever is
passed in. -/
def RPM_AS5600 (maxAngle : Nat) (lowByte highByte : Byte) : State :=
  { regHiRead := false, regLoRead := false, dev := none, bus := 2, address := 0x36,
    maxAngle := maxAngle, lowByte := lowByte, highByte := highByte }

/-! ## The compiled methods -/

/-- `bool RPM_AS5600::init()`; `get_device` is `hal.i2c_mgr->get_device`. -/
def init (get_device : Nat → Nat → Option Handle) (s : State) : Result Bool :=
  match get_device s.bus s.address with
  | none =>
    { ret := false, state := { s with dev := none },
      events := [.get_device s.bus s.address] }
  | some d =>
    { ret := true, state := { s with dev := some d },
      events := [.get_device s.bus s.address, .take .dev_semaphore,
                 .set_speed .SPEED_LOW, .set_retries 2,
                 .register_periodic_callback 50000 ._timer, .give .dev_semaphore] }

/-- The `int` value `(highByte << 8) | lowByte` of `update`. -/
def rawValue (s : State) : Nat := (s.highByte.val <<< 8) ||| s.lowByte.val

/-- The local `angleRaw` of `update`: the binary64 product of `rawValue` with `0.087`,
converted to `uint16_t`. -/
def angleRaw (s : State) : Nat := to_uint16 (mul_0_087 (rawValue s))

/-- `void RPM_AS5600::update(void)`; `micros64` is the value `AP_HAL::micros64()` returns. -/
def update (micros64 : Nat) (s : State) : Result Unit :=
  { ret := (), state := s,
    events := [.take .sem,
               .Write "AOAR" "TimeUS, Angle" "QH" micros64 (angleRaw s),
               .send_text .MAV_SEVERITY_INFO "Angle: %d" [angleRaw s],
               .give .sem] }

/-- `void RPM_AS5600::_timer(void)`; `read_registers reg` is the outcome of
`dev->read_registers(reg, &buf, 1)`: the byte delivered, or `none` when the transfer fails.
The call has no result (`none`) when `dev` is null, since `dev->get_semaphore()`
dereferences it. -/
def _timer (read_registers : Nat → Option Byte) (s : State) : Option (Result Unit) :=
  match s.dev with
  | none => none
  | some _ =>
    let entry : List Event :=
      [.send_text .MAV_SEVERITY_INFO "update called - regHiRead: %d regLoRead: %d"
         [s.regHiRead.toNat, s.regLoRead.toNat],
       .take .dev_semaphore]
    match read_registers REG_RAW_ANG_HI with
    | none =>
      some { ret := (), state := s,
             events := entry ++ [.read_registers REG_RAW_ANG_HI none, .give .dev_semaphore] }
    | some high =>
      let s1 := { s with regHiRead := true }
      let ev1 : List Event := entry ++
        [.read_registers REG_RAW_ANG_HI (some high),
         .send_text .MAV_SEVERITY_INFO "REG_RAW_ANG_HI: %d" [high.val]]
      match read_registers REG_RAW_ANG_LO with
      | none =>
        some { ret := (), state := s1,
               events := ev1 ++ [.read_registers REG_RAW_ANG_LO none, .give .dev_semaphore] }
      | some low =>
        some { ret := (),
               state := { s1 with regLoRead := true, lowByte := low, highByte := high },
               events := ev1 ++
                 [.read_registers REG_RAW_ANG_LO (some low),
                  .send_text .MAV_SEVERITY_INFO "REG_RAW_ANG_LO: %d" [low.val],
                  .give .dev_semaphore, .take .sem, .give .sem] }

/-- `uint16_t RPM_AS5600::getMaxAngle()`: the two reads store straight into the members
`highByte` and `lowByte`; a failed read leaves its buffer as it was, and `||` skips the
second read when the first fails. The result `-1` is `65535` as `uint16_t`. -/
def getMaxAngle (read_registers : Nat → Option Byte) (s : State) : Option (Result Nat) :=
  match s.dev with
  | none => none
  | some _ =>
    match read_registers REG_MANG_HI with
    | none =>
      some { ret := 65535, state := s,
             events := [.take .dev_semaphore, .read_registers REG_MANG_HI none,
                        .give .dev_semaphore] }
    | some high =>
      let s1 := { s with highByte := high }
      match read_registers REG_MANG_LO with
      | none =>
        some { ret := 65535, state := s1,
               events := [.take .dev_semaphore, .read_registers REG_MANG_HI (some high),
                          .read_registers REG_MANG_LO none, .give .dev_semaphore] }
      | some low =>
        let s2 := { s1 with lowByte := low }
        let value := ((s2.highByte.val <<< 8) ||| s2.lowByte.val) % 2 ^ 16
        some { ret := value, state := { s2 with maxAngle := value },
               events := [.take .dev_semaphore, .read_registers REG_MANG_HI (some high),
                          .read_registers REG_MANG_LO (some low), .give .dev_semaphore] }

/-! ## Sequences of calls -/

/-- One call of a compiled method by the environment, with what the collaborators answer
during that call. -/
inductive Call where
  | init (get_device : Nat → Nat → Option Handle)
  | update (micros64 : Nat)
  | _timer (read_registers : Nat → Option Byte)
  | getMaxAngle (read_registers : Nat → Option Byte)

/-- State after one call; `none` when the call dereferences a null `dev`. -/
def step (c : Call) (s : State) : Option State :=
  match c with
  | .init get_device => some (init get_device s).state
  | .update micros64 => some (update micros64 s).state
  | ._timer read_registers => (_timer read_registers s).map Result.state
  | .getMaxAngle read_registers => (getMaxAngle read_registers s).map Result.state

/-- State after a sequence of calls, oldest first. -/
def run : List Call → State → Option State
  | [], s => some s
  | c :: cs, s => (step c s).bind (run cs)

/-! ## Observations on an event list -/

/-- The `Angle` fields of the "AOAR" log records, in order. -/
def loggedAngles : List Event → List Nat
  | [] => []
  | .Write "AOAR" _ _ _ angle :: es => angle :: loggedAngles es
  | _ :: es => loggedAngles es

/-- Number of `send_text` calls. -/
def textCount (es : List Event) : Nat :=
  (es.filter fun e => match e with | .send_text _ _ _ => true | _ => false).length

/-- Number of `read_registers` calls, failed ones included. -/
def readCount (es : List Event) : Nat :=
  (es.filter fun e => match e with | .read_registers _ _ => true | _ => false).length

/-- Number of `read_registers` calls that delivered a byte. -/
def readOkCount (es : List Event) : Nat :=
  (es.filter fun e => match e with | .read_registers _ (some _) => true | _ => false).length

/-- The value `raw * 0.087` truncated, with `0.087` read as the exact decimal `87 / 1000`. -/
def angle_decimal (raw : Nat) : Nat := raw * 87 / 1000

/-- Every `read_registers` call that delivered a byte is immediately followed by a
`send_text` call. -/
def textAfterEachOkRead : List Event → Bool
  | [] => true
  | .read_registers _ (some _) :: .send_text sev fmt args :: es =>
    textAfterEachOkRead (.send_text sev fmt args :: es)
  | .read_registers _ (some _) :: _ => false
  | _ :: es => textAfterEachOkRead es

/-- No `read_registers` call that failed is followed by any `send_text` call. -/
def noTextAfterFailedRead : List Event → Bool
  | [] => true
  | .read_registers _ none :: es => textCount es == 0
  | _ :: es => noTextAfterFailedRead es

/-- An object on which `init` has obtained the device handle 1, holding the sample
(0x01, 0x00). -/
def sampling_0x01_0x00 : State :=
  (init (fun _ _ => some 1) (RPM_AS5600 0 0x00 0x01)).state

/-- A bus on which every transfer fails. -/
def bus_dead : Nat → Option Byte := fun _ => none

/-- A bus that answers 0x0F for `REG_MANG_HI` and 0xFF for every other register. -/
def bus_0x0F_0xFF : Nat → Option Byte :=
  fun reg => if reg = REG_MANG_HI then some 0x0F else some 0xFF

/-- A bus that answers 0x0F for `REG_RAW_ANG_HI` and fails on every other register. -/
def bus_high_only : Nat → Option Byte :=
  fun reg => if reg = REG_RAW_ANG_HI then some 0x0F else none

/-- A bus that answers 0x13 for `REG_RAW_ANG_HI` and 0x88 for every other register. -/
def bus_raw_0x13_0x88 : Nat → Option Byte :=
  fun reg => if reg = REG_RAW_ANG_HI then some 0x13 else some 0x88

/-- A bus that answers 0x0F for `REG_RAW_ANG_HI` and 0xFF for every other register. -/
def bus_raw_0x0F_0xFF : Nat → Option Byte :=
  fun reg => if reg = REG_RAW_ANG_HI then some 0x0F else some 0xFF

/-- A bus that answers 0x0A for `REG_MANG_HI` and fails on every other register. -/
def bus_mang_high_only : Nat → Option Byte :=
  fun reg => if reg = REG_MANG_HI then some 0x0A else none

/-- The semaphore `l` is taken somewhere in the event list. -/
def takes (l : Semaphore) (es : List Event) : Bool :=
  es.any fun e => match e with | .take l' => l' == l | _ => false

/-! ### Lemmas on the binary64 model -/

theorem C_0_087_MANT_nearest :
    2 ^ 52 ≤ C_0_087_MANT ∧ C_0_087_MANT < 2 ^ 53 ∧
    1000 * C_0_087_MANT + 432 = 87 * 2 ^ C_0_087_SCALE := by
  decide

theorem excessBits_le (fuel : Nat) : ∀ (n p : Nat), p < 2 ^ (DBL_MANT_DIG + n) →
    excessBits fuel p ≤ n := by
  induction fuel with
  | zero => intro n p _; simp [excessBits]
  | succ f ih =>
    intro n p hp
    unfold excessBits
    split
    · exact Nat.zero_le _
    · rename_i hge
      cases n with
      | zero => exact absurd hp hge
      | succ m =>
        have h2 : p / 2 < 2 ^ (DBL_MANT_DIG + m) := by
          have : 2 ^ (DBL_MANT_DIG + (m + 1)) = 2 ^ (DBL_MANT_DIG + m) * 2 := by
            rw [← Nat.add_assoc, Nat.pow_succ]
          omega
        have := ih m (p / 2) h2
        omega

theorem excessBits_fuel (fuel : Nat) : ∀ (p : Nat), p < 2 ^ (DBL_MANT_DIG + fuel) →
    p / 2 ^ excessBits fuel p < 2 ^ DBL_MANT_DIG ∧
    (0 < excessBits fuel p → 2 ^ (DBL_MANT_DIG - 1) ≤ p / 2 ^ excessBits fuel p) := by
  induction fuel with
  | zero => intro p hp; simpa [excessBits] using hp
  | succ f ih =>
    intro p hp
    unfold excessBits
    split
    · rename_i hlt
      simpa using hlt
    · rename_i hge
      have h2 : p / 2 < 2 ^ (DBL_MANT_DIG + f) := by
        have : 2 ^ (DBL_MANT_DIG + (f + 1)) = 2 ^ (DBL_MANT_DIG + f) * 2 := by
          rw [← Nat.add_assoc, Nat.pow_succ]
        omega
      obtain ⟨ih1, ih2⟩ := ih (p / 2) h2
      have hdiv : p / 2 ^ (excessBits f (p / 2) + 1) = p / 2 / 2 ^ excessBits f (p / 2) := by
        rw [Nat.pow_succ, Nat.mul_comm, Nat.div_div_eq_div_mul]
      rw [hdiv]
      refine ⟨ih1, fun _ => ?_⟩
      by_cases hk : 0 < excessBits f (p / 2)
      · exact ih2 hk
      · have hz : excessBits f (p / 2) = 0 := by omega
        rw [hz]
        have h53 : (2 : Nat) ^ DBL_MANT_DIG = 2 ^ (DBL_MANT_DIG - 1) * 2 := by decide
        simp only [Nat.pow_zero, Nat.div_one]
        omega

/-- The bound `p` on the number of halvings is enough: `excessBits p p` leaves a
significand of at most `DBL_MANT_DIG` bits, and of exactly that many when bits are dropped. -/
theorem excessBits_self (p : Nat) :
    p / 2 ^ excessBits p p < 2 ^ DBL_MANT_DIG ∧
    (0 < excessBits p p → 2 ^ (DBL_MANT_DIG - 1) ≤ p / 2 ^ excessBits p p) := by
  apply excessBits_fuel
  calc p < 2 ^ p := Nat.lt_two_pow p
    _ ≤ 2 ^ (DBL_MANT_DIG + p) := Nat.pow_le_pow_right (by decide) (by omega)

/-- The result of `round_binary64` is within half a unit in the last place of `p`. -/
theorem round_binary64_half_ulp (p : Nat) :
    2 * round_binary64 p ≤ 2 * p + 2 ^ excessBits p p ∧
    2 * p ≤ 2 * round_binary64 p + 2 ^ excessBits p p := by
  have hdm := Nat.div_add_mod p (2 ^ excessBits p p)
  have hlt : p % 2 ^ excessBits p p < 2 ^ excessBits p p := Nat.mod_lt _ (by positivity)
  unfold round_binary64
  simp only
  split
  · omega
  · rename_i hk
    have hpow : 2 ^ excessBits p p = 2 * 2 ^ (excessBits p p - 1) := by
      rw [← Nat.pow_succ']
      congr 1
      omega
    split
    · rename_i hup
      have e1 : (p / 2 ^ excessBits p p + 1) * 2 ^ excessBits p p =
          2 ^ excessBits p p * (p / 2 ^ excessBits p p) + 2 ^ excessBits p p := by
        rw [Nat.add_mul, Nat.one_mul, Nat.mul_comm]
      rw [e1]
      constructor <;> omega
    · rename_i hdown
      rw [Nat.mul_comm (p / 2 ^ excessBits p p)]
      constructor <;> omega

theorem round_binary64_near (p n : Nat) (hp : p < 2 ^ (DBL_MANT_DIG + n)) :
    round_binary64 p ≤ p + 2 ^ n ∧ p ≤ round_binary64 p + 2 ^ n := by
  have hk : excessBits p p ≤ n := excessBits_le p n p hp
  have hpow : 2 ^ excessBits p p ≤ 2 ^ n := Nat.pow_le_pow_right (by decide) hk
  have hdm := Nat.div_add_mod p (2 ^ excessBits p p)
  have hlt : p % 2 ^ excessBits p p < 2 ^ excessBits p p := Nat.mod_lt _ (by positivity)
  unfold round_binary64
  simp only
  split
  · omega
  · split
    · rw [Nat.add_mul, Nat.mul_comm]
      constructor <;> omega
    · rw [Nat.mul_comm]
      constructor <;> omega

theorem mul_C_0_087_MANT_lt (raw : Nat) (hraw : raw < 65536) :
    raw * C_0_087_MANT < 2 ^ (DBL_MANT_DIG + 16) := by
  have hM : C_0_087_MANT = 6269010681299730 := rfl
  have hP : (2 : Nat) ^ (DBL_MANT_DIG + 16) = 590295810358705651712 := by decide
  rw [hM, hP]
  omega

theorem trunc_mul_0_087_off_thousand (raw : Nat) (hraw : raw < 65536) (hmod : raw % 1000 ≠ 0) :
    mul_0_087 raw / 2 ^ C_0_087_SCALE = raw * 87 / 1000 := by
  have hp := mul_C_0_087_MANT_lt raw hraw
  obtain ⟨h1, h2⟩ := round_binary64_near (raw * C_0_087_MANT) 16 hp
  have hM : C_0_087_MANT = 6269010681299730 := rfl
  have hS : (2 : Nat) ^ C_0_087_SCALE = 72057594037927936 := by decide
  have h16 : (2 : Nat) ^ 16 = 65536 := by decide
  have hdm := Nat.div_add_mod (raw * 87) 1000
  have hf : raw * 87 % 1000 ≠ 0 := by omega
  have hflt : raw * 87 % 1000 < 1000 := Nat.mod_lt _ (by decide)
  unfold mul_0_087
  rw [hS]
  rw [hM] at h1 h2
  rw [h16] at h1 h2
  rw [hM]
  apply Nat.div_eq_of_lt_le
  · omega
  · omega

theorem trunc_mul_0_087_thousands :
    ∀ k, k < 66 → mul_0_087 (1000 * k) / 2 ^ C_0_087_SCALE =
      87 * k - (if 1000 * k ∈ belowInteger then 1 else 0) := by
  decide!

theorem trunc_mul_0_087 (raw : Nat) (hraw : raw < 65536) :
    mul_0_087 raw / 2 ^ C_0_087_SCALE =
      raw * 87 / 1000 - (if raw ∈ belowInteger then 1 else 0) := by
  by_cases hmod : raw % 1000 = 0
  · have hk : raw = 1000 * (raw / 1000) := by omega
    have h66 : raw / 1000 < 66 := by omega
    have h := trunc_mul_0_087_thousands (raw / 1000) h66
    rw [← hk] at h
    rw [h]
    congr 1
    omega
  · have hnot : raw ∉ belowInteger := by
      intro hmem
      simp [belowInteger] at hmem
      omega
    rw [trunc_mul_0_087_off_thousand raw hraw hmod, if_neg hnot]
    rfl

theorem mul_0_087_le (raw : Nat) (hraw : raw < 65536) :
    1000 * mul_0_087 raw ≤ 5701545 * 2 ^ C_0_087_SCALE := by
  have hS : (2 : Nat) ^ C_0_087_SCALE = 72057594037927936 := by decide
  by_cases hmax : raw = 65535
  · subst hmax
    decide!
  · have hp := mul_C_0_087_MANT_lt raw hraw
    obtain ⟨h1, _⟩ := round_binary64_near (raw * C_0_087_MANT) 16 hp
    have hM : C_0_087_MANT = 6269010681299730 := rfl
    have h16 : (2 : Nat) ^ 16 = 65536 := by decide
    unfold mul_0_087
    rw [hM, h16] at h1
    rw [hS, hM]
    omega

/-! ### Lemmas on `update` -/

theorem rawValue_eq (s : State) : rawValue s = 256 * s.highByte.val + s.lowByte.val := by
  unfold rawValue
  rw [Nat.shiftLeft_eq, Nat.mul_comm]
  exact (Nat.mul_add_lt_is_or (i := 8) s.lowByte.isLt s.highByte.val).symm

theorem rawValue_lt (s : State) : rawValue s < 65536 := by
  have h1 := s.highByte.isLt
  have h2 := s.lowByte.isLt
  rw [rawValue_eq]
  omega

theorem trunc_mul_0_087_le (raw : Nat) (hraw : raw < 65536) :
    mul_0_087 raw / 2 ^ C_0_087_SCALE ≤ 5701 := by
  rw [trunc_mul_0_087 raw hraw]
  have : raw * 87 / 1000 ≤ 5701 := by omega
  omega

theorem angleRaw_eq_trunc (s : State) :
    angleRaw s = mul_0_087 (rawValue s) / 2 ^ C_0_087_SCALE := by
  unfold angleRaw to_uint16
  have h := trunc_mul_0_087_le (rawValue s) (rawValue_lt s)
  exact Nat.mod_eq_of_lt (by have : (2 : Nat) ^ 16 = 65536 := by decide
                             omega)

theorem angleRaw_eq (s : State) :
    angleRaw s = angle_decimal (rawValue s) - (if rawValue s ∈ belowInteger then 1 else 0) := by
  rw [angleRaw_eq_trunc, trunc_mul_0_087 (rawValue s) (rawValue_lt s)]
  rfl

/-! ### Lemmas on sequences of calls -/

theorem step_bus_address (c : Call) (s s' : State) (h : step c s = some s') :
    s'.bus = s.bus ∧ s'.address = s.address := by
  cases c with
  | init gd =>
    simp only [step, init, Option.some.injEq] at h
    subst h
    split <;> exact ⟨rfl, rfl⟩
  | update t =>
    simp only [step, update, Option.some.injEq] at h
    subst h
    exact ⟨rfl, rfl⟩
  | _timer rd =>
    simp only [step, _timer] at h
    split at h
    · simp at h
    · split at h
      · simp only [Option.map_some', Option.some.injEq] at h
        subst h
        exact ⟨rfl, rfl⟩
      · split at h <;>
        · simp only [Option.map_some', Option.some.injEq] at h
          subst h
          exact ⟨rfl, rfl⟩
  | getMaxAngle rd =>
    simp only [step, getMaxAngle] at h
    split at h
    · simp at h
    · split at h
      · simp only [Option.map_some', Option.some.injEq] at h
        subst h
        exact ⟨rfl, rfl⟩
      · split at h <;>
        · simp only [Option.map_some', Option.some.injEq] at h
          subst h
          exact ⟨rfl, rfl⟩

theorem run_bus_address (calls : List Call) : ∀ (s s' : State), run calls s = some s' →
    s'.bus = s.bus ∧ s'.address = s.address := by
  induction calls with
  | nil =>
    intro s s' h
    simp only [run, Option.some.injEq] at h
    subst h
    exact ⟨rfl, rfl⟩
  | cons c cs ih =>
    intro s s' h
    simp only [run] at h
    cases hc : step c s with
    | none => simp [hc] at h
    | some s1 =>
      rw [hc] at h
      simp only [Option.some_bind] at h
      obtain ⟨h1, h2⟩ := step_bus_address c s s1 hc
      obtain ⟨h3, h4⟩ := ih s1 s' h
      exact ⟨h3.trans h1, h4.trans h2⟩

theorem run_constructed_bus_address (calls : List Call) (maxAngle : Nat) (lowByte highByte : Byte)
    (s : State) (h : run calls (RPM_AS5600 maxAngle lowByte highByte) = some s) :
    s.bus = 2 ∧ s.address = 0x36 := by
  obtain ⟨h1, h2⟩ := run_bus_address calls _ s h
  exact ⟨h1, h2⟩

/-- What one call can do to the two flags: leave both, set `regHiRead` only, or set both. -/
theorem step_flags (c : Call) (s s' : State) (h : step c s = some s') :
    (s'.regHiRead = s.regHiRead ∧ s'.regLoRead = s.regLoRead) ∨
    (s'.regHiRead = true ∧ s'.regLoRead = s.regLoRead) ∨
    (s'.regHiRead = true ∧ s'.regLoRead = true) := by
  cases c with
  | init gd =>
    simp only [step, init, Option.some.injEq] at h
    subst h
    split <;> exact Or.inl ⟨rfl, rfl⟩
  | update t =>
    simp only [step, update, Option.some.injEq] at h
    subst h
    exact Or.inl ⟨rfl, rfl⟩
  | _timer rd =>
    simp only [step, _timer] at h
    split at h
    · simp at h
    · split at h
      · simp only [Option.map_some', Option.some.injEq] at h
        subst h
        exact Or.inl ⟨rfl, rfl⟩
      · split at h
        · simp only [Option.map_some', Option.some.injEq] at h
          subst h
          exact Or.inr (Or.inl ⟨rfl, rfl⟩)
        · simp only [Option.map_some', Option.some.injEq] at h
          subst h
          exact Or.inr (Or.inr ⟨rfl, rfl⟩)
  | getMaxAngle rd =>
    simp only [step, getMaxAngle] at h
    split at h
    · simp at h
    · split at h
      · simp only [Option.map_some', Option.some.injEq] at h
        subst h
        exact Or.inl ⟨rfl, rfl⟩
      · split at h <;>
        · simp only [Option.map_some', Option.some.injEq] at h
          subst h
          exact Or.inl ⟨rfl, rfl⟩

theorem run_flags (calls : List Call) : ∀ (s s' : State), run calls s = some s' →
    ((s.regLoRead = true → s.regHiRead = true) → (s'.regLoRead = true → s'.regHiRead = true)) ∧
    (s.regHiRead = true → s'.regHiRead = true) ∧
    (s.regLoRead = true → s'.regLoRead = true) := by
  induction calls with
  | nil =>
    intro s s' h
    simp only [run, Option.some.injEq] at h
    subst h
    exact ⟨id, id, id⟩
  | cons c cs ih =>
    intro s s' h
    simp only [run] at h
    cases hc : step c s with
    | none => simp [hc] at h
    | some s1 =>
      rw [hc] at h
      simp only [Option.some_bind] at h
      obtain ⟨i1, i2, i3⟩ := ih s1 s' h
      have hs := step_flags c s s1 hc
      refine ⟨fun hinv => i1 ?_, fun hhi => i2 ?_, fun hlo => i3 ?_⟩
      · intro hlo1
        rcases hs with ⟨e1, e2⟩ | ⟨e1, _⟩ | ⟨e1, _⟩
        · rw [e1]
          exact hinv (e2 ▸ hlo1)
        · exact e1
        · exact e1
      · rcases hs with ⟨e1, _⟩ | ⟨e1, _⟩ | ⟨e1, _⟩
        · rw [e1]
          exact hhi
        · exact e1
        · exact e1
      · rcases hs with ⟨_, e2⟩ | ⟨_, e2⟩ | ⟨_, e2⟩
        · rw [e2]
          exact hlo
        · rw [e2]
          exact hlo
        · exact e2

/-- The two methods that do not touch the bus leave the stored sample alone. -/
theorem init_update_keep_sample (get_device : Nat → Nat → Option Handle) (micros64 : Nat)
    (s : State) :
    (init get_device s).state.highByte = s.highByte ∧
    (init get_device s).state.lowByte = s.lowByte ∧
    (update micros64 s).state.highByte = s.highByte ∧
    (update micros64 s).state.lowByte = s.lowByte := by
  refine ⟨?_, ?_, rfl, rfl⟩
  · unfold init
    split <;> rfl
  · unfold init
    split <;> rfl

/-- The refresh path changes the stored pair only in a call that takes `sem`, and `update`
holds `sem` from its first collaborator call to its last. -/
theorem timer_update_hold_sem (read_registers : Nat → Option Byte) (micros64 : Nat)
    (s : State) (r : Result Unit) (h : _timer read_registers s = some r) :
    ((r.state.highByte ≠ s.highByte ∨ r.state.lowByte ≠ s.lowByte) →
      takes .sem r.events = true) ∧
    (update micros64 s).events.head? = some (.take .sem) ∧
    (update micros64 s).events.getLast? = some (.give .sem) := by
  refine ⟨?_, rfl, rfl⟩
  intro hchg
  simp only [_timer] at h
  split at h
  · simp at h
  · split at h
    · simp only [Option.some.injEq] at h
      subst h
      rcases hchg with hc | hc <;> exact absurd rfl hc
    · split at h
      · simp only [Option.some.injEq] at h
        subst h
        rcases hchg with hc | hc <;> exact absurd rfl hc
      · simp only [Option.some.injEq] at h
        subst h
        rfl

/-! ## The claims -/

/-- C1 (counterexample). After a refresh in which the bus delivers 0x13 and 0x88 the stored
pair is (0x13, 0x88) and the raw value is 5000; the binary64 product `5000 * 0.087` is
`0x1.b2fffffffffffp+8 = 434.99999999999994`, so `update` writes 434 in the "AOAR" record and
in the text, while `5000 * 87 / 1000` is 435. -/
theorem update_0x13_0x88_logs_434 :
    ∃ r, _timer bus_raw_0x13_0x88 sampling_0x01_0x00 = some r ∧
      r.state.highByte = 0x13 ∧ r.state.lowByte = 0x88 ∧
      (update 0 r.state).events =
        [.take .sem, .Write "AOAR" "TimeUS, Angle" "QH" 0 434,
         .send_text .MAV_SEVERITY_INFO "Angle: %d" [434], .give .sem] ∧
      angle_decimal (256 * 0x13 + 0x88) = 435 ∧
      loggedAngles (update 0 r.state).events ≠ [angle_decimal (256 * 0x13 + 0x88)] := by
  refine ⟨_, rfl, by decide, by decide, ?_⟩
  generalize hs : (Result.state _) = st
  have h : angleRaw st = 434 := by
    subst hs
    decide!
  refine ⟨?_, by decide, ?_⟩
  · simp only [update, h]
  · simp only [update, h, loggedAngles]
    decide

/-- C1 (amended). For every stored byte pair, `update` computes the truncated binary64
product of `raw = 256 * highByte + lowByte` with the double `0.087`; this is
`raw * 87 / 1000` rounded down, except at the 18 raw values of `belowInteger` (all at least
5000), where it is one less. In particular it is `raw * 87 / 1000` rounded down for every
12-bit raw value (`highByte ≤ 0x0F`). `update` writes exactly that value in its single
"AOAR" log record and puts the same value in the status text, and leaves the object
unchanged. The byte pair (0x01, 0x00) gives 22 and (0x0F, 0xFF) gives 356. -/
theorem update_logs_truncated_product (micros64 : Nat) (s : State) :
    (update micros64 s).events =
      [.take .sem,
       .Write "AOAR" "TimeUS, Angle" "QH" micros64
         (angle_decimal (256 * s.highByte.val + s.lowByte.val) -
           (if 256 * s.highByte.val + s.lowByte.val ∈ belowInteger then 1 else 0)),
       .send_text .MAV_SEVERITY_INFO "Angle: %d"
         [angle_decimal (256 * s.highByte.val + s.lowByte.val) -
           (if 256 * s.highByte.val + s.lowByte.val ∈ belowInteger then 1 else 0)],
       .give .sem] ∧
    loggedAngles (update micros64 s).events = [angleRaw s] ∧
    (s.highByte.val ≤ 0x0F →
      angleRaw s = angle_decimal (256 * s.highByte.val + s.lowByte.val)) ∧
    (s.highByte = 0x01 → s.lowByte = 0x00 → angleRaw s = 22) ∧
    (s.highByte = 0x0F → s.lowByte = 0xFF → angleRaw s = 356) ∧
    (update micros64 s).state = s := by
  have hraw := rawValue_eq s
  have hang := angleRaw_eq s
  rw [hraw] at hang
  have h12 : s.highByte.val ≤ 0x0F →
      angleRaw s = angle_decimal (256 * s.highByte.val + s.lowByte.val) := by
    intro hhi
    have hlo := s.lowByte.isLt
    have hnot : 256 * s.highByte.val + s.lowByte.val ∉ belowInteger := by
      intro hmem
      simp [belowInteger] at hmem
      omega
    rw [hang, if_neg hnot]
    rfl
  refine ⟨?_, ?_, h12, ?_, ?_, rfl⟩
  · simp only [update, hang]
  · simp [update, loggedAngles]
  · intro h1 h0
    have := h12 (by rw [h1]; decide)
    rw [this, h1, h0]
    decide
  · intro h1 h0
    have := h12 (by rw [h1]; decide)
    rw [this, h1, h0]
    decide

/-- C8. For every byte pair the binary64 value `((highByte << 8) | lowByte) * 0.087` is
non-negative and at most 5701.545, its integer part is below `2 ^ 16`, so the narrowing to
`uint16_t` in `update` does not wrap: the reported angle is that integer part, it is at most
5701, and at most 356 whenever `highByte ≤ 0x0F`. -/
theorem update_angle_in_range (s : State) :
    0 ≤ product (rawValue s) ∧
    product (rawValue s) ≤ 5701545 / 1000 ∧
    ⌊product (rawValue s)⌋₊ < 2 ^ 16 ∧
    angleRaw s = ⌊product (rawValue s)⌋₊ ∧
    angleRaw s ≤ 5701 ∧
    (s.highByte.val ≤ 0x0F → angleRaw s ≤ 356) := by
  have hlt := rawValue_lt s
  have hfloor : ⌊product (rawValue s)⌋₊ = mul_0_087 (rawValue s) / 2 ^ C_0_087_SCALE := by
    unfold product
    have := Nat.floor_div_eq_div (α := ℚ) (mul_0_087 (rawValue s)) (2 ^ C_0_087_SCALE)
    rw [← this]
    push_cast
    rfl
  have hle := trunc_mul_0_087_le (rawValue s) hlt
  have hang := angleRaw_eq_trunc s
  refine ⟨?_, ?_, ?_, ?_, ?_, ?_⟩
  · unfold product
    positivity
  · unfold product
    rw [div_le_div_iff₀ (by positivity) (by norm_num)]
    have h := mul_0_087_le (rawValue s) hlt
    have h' : (mul_0_087 (rawValue s) : ℚ) * 1000 ≤ 5701545 * 2 ^ C_0_087_SCALE := by
      have : ((1000 * mul_0_087 (rawValue s) : Nat) : ℚ) ≤
          ((5701545 * 2 ^ C_0_087_SCALE : Nat) : ℚ) := by exact_mod_cast h
      push_cast at this
      linarith
    exact h'
  · rw [hfloor]
    have : (2 : Nat) ^ 16 = 65536 := by decide
    omega
  · rw [hfloor, hang]
  · rw [hang]
    exact hle
  · intro hhi
    rw [angleRaw_eq s, rawValue_eq s]
    have hlo := s.lowByte.isLt
    have : angle_decimal (256 * s.highByte.val + s.lowByte.val) ≤ 356 := by
      unfold angle_decimal
      omega
    omega

/-- C2. When the object holds a device handle and at least one of the two register reads
of `_timer` fails (the high read fails, or the high read succeeds and the low read fails),
the call returns and leaves the stored sample as it was: `highByte` and `lowByte` after the
call equal their values before it. -/
theorem timer_failed_read_keeps_sample (read_registers : Nat → Option Byte) (s : State)
    (hdev : s.dev ≠ none)
    (hfail : read_registers REG_RAW_ANG_HI = none ∨
      (read_registers REG_RAW_ANG_HI ≠ none ∧ read_registers REG_RAW_ANG_LO = none)) :
    ∃ r, _timer read_registers s = some r ∧
      r.state.highByte = s.highByte ∧ r.state.lowByte = s.lowByte := by
  cases hd : s.dev with
  | none => exact absurd hd hdev
  | some d =>
    cases hhi : read_registers REG_RAW_ANG_HI with
    | none =>
      simp only [_timer, hd, hhi]
      exact ⟨_, rfl, rfl, rfl⟩
    | some high =>
      cases hlo : read_registers REG_RAW_ANG_LO with
      | none =>
        simp only [_timer, hd, hhi, hlo]
        exact ⟨_, rfl, rfl, rfl⟩
      | some low =>
        rcases hfail with h | ⟨_, h⟩
        · rw [hhi] at h
          cases h
        · rw [hlo] at h
          cases h

/-- C2 at a concrete input: a dead bus, and a bus whose high read succeeds and whose low
read fails, both leave the sample (0x01, 0x00) in place. -/
theorem timer_failed_read_keeps_sample_witness :
    sampling_0x01_0x00.dev ≠ none ∧
    (∃ r, _timer bus_dead sampling_0x01_0x00 = some r ∧
      r.state.highByte = 0x01 ∧ r.state.lowByte = 0x00) ∧
    (∃ r, _timer bus_high_only sampling_0x01_0x00 = some r ∧
      r.state.highByte = 0x01 ∧ r.state.lowByte = 0x00) :=
  ⟨by decide,
   timer_failed_read_keeps_sample bus_dead sampling_0x01_0x00 (by decide) (Or.inl rfl),
   timer_failed_read_keeps_sample bus_high_only sampling_0x01_0x00 (by decide)
     (Or.inr ⟨by decide, by decide⟩)⟩

/-- C3. When the object holds a device handle, the read of `REG_RAW_ANG_HI` (0x0c)
succeeds with byte `h` and the read of `REG_RAW_ANG_LO` (0x0d) succeeds with byte `l`,
`_timer` returns with `highByte = h` and `lowByte = l`, and a subsequent `update` logs the
angle computed from `raw = 256 * h + l`. -/
theorem timer_success_stores_pair (read_registers : Nat → Option Byte) (s : State)
    (h l : Byte) (micros64 : Nat) (hdev : s.dev ≠ none)
    (hhi : read_registers 0x0c = some h) (hlo : read_registers 0x0d = some l) :
    ∃ r, _timer read_registers s = some r ∧
      r.state.highByte = h ∧ r.state.lowByte = l ∧
      rawValue r.state = 256 * h.val + l.val ∧
      loggedAngles (update micros64 r.state).events =
        [to_uint16 (mul_0_087 (256 * h.val + l.val))] := by
  cases hd : s.dev with
  | none => exact absurd hd hdev
  | some d =>
    have hhi' : read_registers REG_RAW_ANG_HI = some h := hhi
    have hlo' : read_registers REG_RAW_ANG_LO = some l := hlo
    simp only [_timer, hd, hhi', hlo']
    refine ⟨_, rfl, rfl, rfl, ?_, ?_⟩
    · rw [rawValue_eq]
    · simp only [update, loggedAngles, angleRaw]
      rw [rawValue_eq]

/-- C3 at a concrete input: the bus answers 0x0F then 0xFF and the next `update` logs 356. -/
theorem timer_success_stores_pair_witness :
    sampling_0x01_0x00.dev ≠ none ∧
    bus_raw_0x0F_0xFF 0x0c = some 0x0F ∧ bus_raw_0x0F_0xFF 0x0d = some 0xFF ∧
    ∃ r, _timer bus_raw_0x0F_0xFF sampling_0x01_0x00 = some r ∧
      r.state.highByte = 0x0F ∧ r.state.lowByte = 0xFF ∧
      rawValue r.state = 256 * (0x0F : Byte).val + (0xFF : Byte).val ∧
      loggedAngles (update 0 r.state).events =
        [to_uint16 (mul_0_087 (256 * (0x0F : Byte).val + (0xFF : Byte).val))] :=
  ⟨by decide, by decide, by decide,
   timer_success_stores_pair bus_raw_0x0F_0xFF sampling_0x01_0x00 0x0F 0xFF 0
     (by decide) (by decide) (by decide)⟩

/-- C4. On an object in any state reachable from the constructor (so `bus = 2` and
`address = 0x36`), `init` returns false exactly when the bus manager yields no handle for
(2, 0x36); and when it returns false its only collaborator call is that `get_device`: no
periodic callback is registered and neither speed nor retry count is set. -/
theorem init_false_iff_no_handle (get_device : Nat → Nat → Option Handle)
    (calls : List Call) (maxAngle : Nat) (lowByte highByte : Byte) (s : State)
    (hreach : run calls (RPM_AS5600 maxAngle lowByte highByte) = some s) :
    ((init get_device s).ret = false ↔ get_device 2 0x36 = none) ∧
    ((init get_device s).ret = false →
      (init get_device s).events = [.get_device 2 0x36] ∧
      (∀ e ∈ (init get_device s).events,
        (∀ period cb, e ≠ .register_periodic_callback period cb) ∧
        (∀ speed, e ≠ .set_speed speed) ∧ (∀ n, e ≠ .set_retries n))) := by
  obtain ⟨hbus, haddr⟩ := run_constructed_bus_address calls maxAngle lowByte highByte s hreach
  cases hg : get_device 2 0x36 with
  | none =>
    have hi : init get_device s =
        { ret := false, state := { s with dev := none }, events := [.get_device 2 0x36] } := by
      simp only [init, hbus, haddr, hg]
    rw [hi]
    constructor
    · exact Iff.intro (fun _ => rfl) (fun _ => rfl)
    · intro _
      constructor
      · rfl
      · intro e he
        simp only [List.mem_singleton] at he
        subst he
        refine ⟨?_, ?_, ?_⟩
        · intro _ _ h
          cases h
        · intro _ h
          cases h
        · intro _ h
          cases h
  | some d =>
    have hi : (init get_device s).ret = true := by
      simp only [init, hbus, haddr, hg]
    rw [hi]
    constructor
    · exact Iff.intro (fun h => by cases h) (fun h => by cases h)
    · intro h
      cases h

/-- C4 at a concrete input: a bus manager without devices, on the freshly constructed
object. -/
theorem init_false_iff_no_handle_witness :
    run [] (RPM_AS5600 0 0 0) = some (RPM_AS5600 0 0 0) ∧
    (init (fun _ _ => none) (RPM_AS5600 0 0 0)).ret = false ∧
    (init (fun _ _ => none) (RPM_AS5600 0 0 0)).events = [.get_device 2 0x36] :=
  ⟨rfl,
   ((init_false_iff_no_handle (fun _ _ => none) [] 0 0 0 (RPM_AS5600 0 0 0) rfl).1).2 rfl,
   ((init_false_iff_no_handle (fun _ _ => none) [] 0 0 0 (RPM_AS5600 0 0 0) rfl).2 rfl).1⟩

/-- C5. On an object in any state reachable from the constructor, whenever the bus manager
yields a handle for (2, 0x36), `init` returns true, keeps the handle, and its collaborator
calls are, in this order: `get_device`, take of the device semaphore, `set_speed(SPEED_LOW)`,
`set_retries(2)`, one `register_periodic_callback(50000, _timer)`, release of the device
semaphore. -/
theorem init_configures_and_registers (get_device : Nat → Nat → Option Handle)
    (calls : List Call) (maxAngle : Nat) (lowByte highByte : Byte) (s : State) (d : Handle)
    (hreach : run calls (RPM_AS5600 maxAngle lowByte highByte) = some s)
    (hdev : get_device 2 0x36 = some d) :
    (init get_device s).ret = true ∧
    (init get_device s).state.dev = some d ∧
    (init get_device s).events =
      [.get_device 2 0x36, .take .dev_semaphore, .set_speed .SPEED_LOW, .set_retries 2,
       .register_periodic_callback 50000 ._timer, .give .dev_semaphore] := by
  obtain ⟨hbus, haddr⟩ := run_constructed_bus_address calls maxAngle lowByte highByte s hreach
  simp only [init, hbus, haddr, hdev, and_self]

/-- C5 at a concrete input: a bus manager that hands out handle 1, on the freshly
constructed object. -/
theorem init_configures_and_registers_witness :
    run [] (RPM_AS5600 0 0 0) = some (RPM_AS5600 0 0 0) ∧
    (fun (_ _ : Nat) => some (1 : Handle)) 2 0x36 = some 1 ∧
    (init (fun _ _ => some 1) (RPM_AS5600 0 0 0)).ret = true ∧
    (init (fun _ _ => some 1) (RPM_AS5600 0 0 0)).state.dev = some 1 ∧
    (init (fun _ _ => some 1) (RPM_AS5600 0 0 0)).events =
      [.get_device 2 0x36, .take .dev_semaphore, .set_speed .SPEED_LOW, .set_retries 2,
       .register_periodic_callback 50000 ._timer, .give .dev_semaphore] :=
  ⟨rfl, rfl,
   init_configures_and_registers (fun _ _ => some 1) [] 0 0 0 (RPM_AS5600 0 0 0) 1 rfl rfl⟩

/-- C6 (failing input). On an object holding the sample (0x01, 0x00), a `getMaxAngle` call
whose reads of `REG_MANG_HI` and `REG_MANG_LO` deliver 0x0F and 0xFF returns 0x0FFF and
leaves `highByte = 0x0F`, `lowByte = 0xFF`: the stored sample is overwritten, and the next
`update` logs 356 instead of 22. -/
theorem getMaxAngle_overwrites_sample :
    sampling_0x01_0x00.highByte = 0x01 ∧ sampling_0x01_0x00.lowByte = 0x00 ∧
    loggedAngles (update 0 sampling_0x01_0x00).events = [22] ∧
    ∃ r, getMaxAngle bus_0x0F_0xFF sampling_0x01_0x00 = some r ∧
      r.ret = 0x0FFF ∧ r.state.highByte = 0x0F ∧ r.state.lowByte = 0xFF ∧
      loggedAngles (update 0 r.state).events = [356] := by
  have h22 : angleRaw sampling_0x01_0x00 = 22 := by decide!
  refine ⟨by decide, by decide, ?_, ?_⟩
  · simp only [update, loggedAngles, h22]
  · refine ⟨_, rfl, by decide, by decide, by decide, ?_⟩
    simp only [update, loggedAngles, List.cons.injEq, and_true]
    decide!

/-- C9 (counterexample). On a dead bus `_timer` performs one register read and emits one
text, not two. -/
theorem timer_dead_bus_one_text :
    ∃ r, _timer bus_dead sampling_0x01_0x00 = some r ∧
      readCount r.events = 1 ∧ textCount r.events = 1 ∧
      textCount r.events ≠ 1 + readCount r.events :=
  ⟨_, rfl, by decide, by decide, by decide⟩

/-- C9 (amended). Every invocation of `_timer` on an object holding a device handle returns
and emits one text at entry, before any bus access, and one further text immediately after
each register read that succeeds, and none after a read that fails: for every outcome of
the reads the number of texts emitted is 1 plus the number of successful register reads. -/
theorem timer_texts (read_registers : Nat → Option Byte) (s : State) (hdev : s.dev ≠ none) :
    ∃ r, _timer read_registers s = some r ∧
      r.events.head? =
        some (.send_text .MAV_SEVERITY_INFO "update called - regHiRead: %d regLoRead: %d"
          [s.regHiRead.toNat, s.regLoRead.toNat]) ∧
      textCount r.events = 1 + readOkCount r.events ∧
      textAfterEachOkRead r.events = true ∧
      noTextAfterFailedRead r.events = true := by
  cases hd : s.dev with
  | none => exact absurd hd hdev
  | some d =>
    cases hhi : read_registers REG_RAW_ANG_HI with
    | none =>
      simp only [_timer, hd, hhi]
      exact ⟨_, rfl, rfl, rfl, rfl, rfl⟩
    | some high =>
      cases hlo : read_registers REG_RAW_ANG_LO with
      | none =>
        simp only [_timer, hd, hhi, hlo]
        exact ⟨_, rfl, rfl, rfl, rfl, rfl⟩
      | some low =>
        simp only [_timer, hd, hhi, hlo]
        exact ⟨_, rfl, rfl, rfl, rfl, rfl⟩

/-- C9 (amended) at a concrete input: high read succeeds, low read fails, two texts. -/
theorem timer_texts_witness :
    sampling_0x01_0x00.dev ≠ none ∧
    ∃ r, _timer bus_high_only sampling_0x01_0x00 = some r ∧
      r.events.head? =
        some (.send_text .MAV_SEVERITY_INFO "update called - regHiRead: %d regLoRead: %d"
          [sampling_0x01_0x00.regHiRead.toNat, sampling_0x01_0x00.regLoRead.toNat]) ∧
      textCount r.events = 1 + readOkCount r.events ∧
      textAfterEachOkRead r.events = true ∧
      noTextAfterFailedRead r.events = true :=
  ⟨by decide, timer_texts bus_high_only sampling_0x01_0x00 (by decide)⟩

/-- C10. From the constructed object (`regHiRead = false`, `regLoRead = false`), every state
reached by any sequence of `init`, `update`, `_timer` and `getMaxAngle` calls with arbitrary
collaborator answers satisfies `regLoRead → regHiRead`; along any sequence of calls from any
state both flags are monotone; and a `_timer` call on an object holding a device handle whose
high read succeeds and whose low read fails returns with `regHiRead = true`, and `regLoRead`,
`highByte` and `lowByte` unchanged. -/
theorem flags_invariant :
    (∀ (calls : List Call) (maxAngle : Nat) (lowByte highByte : Byte) (s : State),
      run calls (RPM_AS5600 maxAngle lowByte highByte) = some s →
      (s.regLoRead = true → s.regHiRead = true)) ∧
    (∀ (calls : List Call) (s s' : State), run calls s = some s' →
      (s.regHiRead = true → s'.regHiRead = true) ∧
      (s.regLoRead = true → s'.regLoRead = true)) ∧
    (∀ (read_registers : Nat → Option Byte) (s : State) (h : Byte), s.dev ≠ none →
      read_registers REG_RAW_ANG_HI = some h → read_registers REG_RAW_ANG_LO = none →
      ∃ r, _timer read_registers s = some r ∧ r.state.regHiRead = true ∧
        r.state.regLoRead = s.regLoRead ∧ r.state.highByte = s.highByte ∧
        r.state.lowByte = s.lowByte) := by
  refine ⟨?_, ?_, ?_⟩
  · intro calls m l h s hrun
    exact (run_flags calls _ s hrun).1 (fun hlo => by cases hlo)
  · intro calls s s' hrun
    exact (run_flags calls s s' hrun).2
  · intro rd s h hdev hhi hlo
    cases hd : s.dev with
    | none => exact absurd hd hdev
    | some d =>
      simp only [_timer, hd, hhi, hlo]
      exact ⟨_, rfl, rfl, rfl, rfl, rfl⟩

/-- C10 at a concrete input: after `init`, a `_timer` call whose low read fails and an
`update`, the object has `regHiRead = true` and `regLoRead = false`. -/
theorem flags_invariant_witness :
    ∃ s, run [.init (fun _ _ => some 1), ._timer bus_high_only, .update 0]
        (RPM_AS5600 0 0x00 0x01) = some s ∧
      s.regHiRead = true ∧ s.regLoRead = false ∧
      (s.regLoRead = true → s.regHiRead = true) :=
  ⟨_, rfl, rfl, rfl,
   flags_invariant.1 [.init (fun _ _ => some 1), ._timer bus_high_only, .update 0]
     0 0x00 0x01 _ rfl⟩

/-- C7 (failing input). `getMaxAngle` writes the pair without taking `sem`. With both of its
reads answered (0x0F, 0xFF) it changes `highByte` and `lowByte` of an object holding
(0x01, 0x00) in a call whose only semaphore is the device semaphore. With the high read
answered 0x0A and the low read failing, on an object whose refresh stored (0x0F, 0xFF), it
leaves the pair (0x0A, 0xFF): the two bytes the next `update` uses, logging 244, do not come
from one acquisition of `sem`. -/
theorem getMaxAngle_writes_pair_without_sem :
    (∃ r, getMaxAngle bus_0x0F_0xFF sampling_0x01_0x00 = some r ∧
      r.state.highByte ≠ sampling_0x01_0x00.highByte ∧
      r.state.lowByte ≠ sampling_0x01_0x00.lowByte ∧
      takes .sem r.events = false ∧
      r.events = [.take .dev_semaphore, .read_registers REG_MANG_HI (some 0x0F),
                  .read_registers REG_MANG_LO (some 0xFF), .give .dev_semaphore]) ∧
    (∃ s r, run [.init (fun _ _ => some 1), ._timer bus_raw_0x0F_0xFF]
        (RPM_AS5600 0 0x00 0x00) = some s ∧
      s.highByte = 0x0F ∧ s.lowByte = 0xFF ∧
      getMaxAngle bus_mang_high_only s = some r ∧
      r.ret = 65535 ∧
      r.state.highByte = 0x0A ∧ r.state.lowByte = 0xFF ∧
      takes .sem r.events = false ∧
      loggedAngles (update 0 r.state).events = [244]) := by
  refine ⟨⟨_, rfl, by decide, by decide, rfl, rfl⟩, ⟨_, _, rfl, by decide, by decide, rfl,
    rfl, by decide, by decide, rfl, ?_⟩⟩
  simp only [update, loggedAngles, List.cons.injEq, and_true]
  decide!

end RPM_AS5600
